import Mathlib

/-!
# MPI.NET examples — verification of the message-passing substrate and scripts

The repository ships three IronPython example scripts (`src/Examples/Python/Pi.py`,
`Ring.py`, `PingPong.py`) driving an external message-passing library.  The
communication substrate they assume (Transport, Process Registry, Communicator,
Collective Engine) is not part of the repository's sources, so it is modelled
here from the specification; the scripts' own logic (the ring round, the dart
loop, the reduce call sites) is translated from the Python sources.
-/

namespace MPIModel

/-- Payload kinds: the examples send strings and integers (spec §3, §9: a small
closed set of payload kinds, text and integer). -/
inductive PayloadKind where
  | text
  | int
deriving DecidableEq, Repr

/-- Modelled from the spec: a typed payload value, either text or integer
(spec §3 "Message: payload is an opaque typed value (string or integer)"). -/
inductive Payload where
  | text (s : String)
  | int (n : Int)
deriving DecidableEq, Repr

/-- The kind (static type) of a payload; each send/receive call site commits to
one kind (spec §4.3). -/
def Payload.kind : Payload → PayloadKind
  | .text _ => .text
  | .int _ => .int

/-- Modelled from the spec: the payload wire format (spec §6 — a payload can be
encoded to bytes and decoded back to an equivalent value, and the encoding
preserves the kind, string vs. integer, across the boundary).  A leading kind
marker is followed by the character codes of the string, or by the sign marker
and base-256 digits of the integer. -/
def encodePayload : Payload → List Nat
  | .text s => 0 :: s.toList.map Char.toNat
  | .int n => (if 0 ≤ n then 1 else 2) :: Nat.digits 256 n.natAbs

/-- Modelled from the spec: decoding of the payload wire format (spec §6);
returns `none` on a malformed byte string. -/
def decodePayload : List Nat → Option Payload
  | 0 :: bs => some (.text ⟨bs.map Char.ofNat⟩)
  | 1 :: bs => some (.int (Nat.ofDigits 256 bs : ℕ))
  | 2 :: bs => some (.int (-(Nat.ofDigits 256 bs : ℕ) : Int))
  | _ => none

/-- Modelled from the spec: a Message is the triple (payload bytes, source rank,
tag) (spec §3). -/
structure Message where
  data : List Nat
  source : Nat
  tag : Nat
deriving DecidableEq, Repr

/-- Modelled from the spec: an in-flight message together with its destination
rank; the Transport's inbound queues (spec §4.1, §5) are modelled as the
send-ordered list of these packets, restricted per destination. -/
structure Packet where
  dest : Nat
  msg : Message
deriving DecidableEq, Repr

/-- Modelled from the spec: the source filter of a receive, a specific rank or
the wildcard "any source", represented as a dedicated variant rather than a
magic integer (spec §3, §9). -/
inductive SourceFilter where
  | rank (r : Nat)
  | anySource
deriving DecidableEq, Repr

/-- Whether a queued message matches a receive's (source filter, tag) pair:
the tag must match exactly, the source must match unless the filter is the
wildcard (spec §4.1 `receive_bytes`). -/
def filterMatches (f : SourceFilter) (tag : Nat) (m : Message) : Bool :=
  (match f with
   | .rank r => m.source == r
   | .anySource => true) && m.tag == tag

/-- Modelled from the spec: the Communicator's state — the fixed participant
count `size`, the in-flight packets in send order, and the destroyed flag set
at environment teardown (spec §3 "Communicator", §4.1). -/
structure CommState where
  size : Nat
  inflight : List Packet
  destroyed : Bool
deriving DecidableEq, Repr

/-- Modelled from the spec: the error kinds surfaced by the substrate
(spec §7). -/
inductive MPIError where
  | connectionError
  | invalidDestination
  | invalidSource
  | typeMismatch
  | destroyedComm
deriving DecidableEq, Repr

/-- Modelled from the spec: `send` (spec §4.3) — on a destroyed communicator it
fails; a destination rank outside `[0, size)` fails with
`InvalidDestinationError`; otherwise the encoded message is enqueued at the end
of the in-flight queue (fire-and-forget, FIFO order preserved). -/
def send (st : CommState) (selfRank : Nat) (value : Payload) (destRank tag : Nat) :
    Except MPIError CommState :=
  if st.destroyed then .error .destroyedComm
  else if st.size ≤ destRank then .error .invalidDestination
  else .ok { st with
    inflight := st.inflight ++ [⟨destRank, ⟨encodePayload value, selfRank, tag⟩⟩] }

/-- Remove the earliest-sent packet addressed to `selfRank` that matches the
(source filter, tag) pair, returning its message and the remaining queue
(spec §4.1: if multiple queued messages match, the earliest-sent one is
returned first). -/
def takeFirstMatch (selfRank : Nat) (f : SourceFilter) (tag : Nat) :
    List Packet → Option (Message × List Packet)
  | [] => none
  | q :: qs =>
    if q.dest == selfRank && filterMatches f tag q.msg then
      some (q.msg, qs)
    else
      match takeFirstMatch selfRank f tag qs with
      | none => none
      | some (m, rest) => some (m, q :: rest)

/-- Whether a receive's source filter is invalid: a specific rank outside
`[0, size)` (spec §4.3 — receive's source constraints mirror send's
destination constraints; the wildcard is always valid). -/
def sourceInvalid (sz : Nat) : SourceFilter → Bool
  | .rank r => decide (sz ≤ r)
  | .anySource => false

/-- Modelled from the spec: `receive` (spec §4.3) — on a destroyed communicator
it fails; an out-of-range source rank fails with `InvalidSourceError`; if no
queued message matches, the caller blocks (modelled as `.ok none`); otherwise
the earliest matching message is removed from the queue, decoded, checked
against the expected payload kind (`TypeMismatchError` on failure), and its
payload returned together with the new state. -/
def receive (st : CommState) (selfRank : Nat) (f : SourceFilter) (tag : Nat)
    (expected : PayloadKind) : Except MPIError (Option (Payload × CommState)) :=
  if st.destroyed then .error .destroyedComm
  else if sourceInvalid st.size f then .error .invalidSource
  else
    match takeFirstMatch selfRank f tag st.inflight with
    | none => .ok none
    | some (m, rest) =>
      match decodePayload m.data with
      | none => .error .typeMismatch
      | some p =>
        if p.kind = expected then .ok (some (p, { st with inflight := rest }))
        else .error .typeMismatch

/-- Modelled from the spec: the Collective Engine's `reduce` (spec §4.4) —
`values` lists the `local_value` contributed by each rank in rank order; on the
root the call returns the fold of the operation over the contributed values,
on every other rank it returns no aggregate (`none`).  A destroyed communicator
fails (spec §3 lifecycle). -/
def reduce (st : CommState) (selfRank : Nat) (values : List Int)
    (op : Int → Int → Int) (rootRank : Nat) : Except MPIError (Option Int) :=
  if st.destroyed then .error .destroyedComm
  else
    match values with
    | [] => .ok none
    | v :: vs =>
      if selfRank = rootRank then .ok (some (vs.foldl op v)) else .ok none

/-- Driver-level outcome: a substrate error, or a deadlock (a receive that
blocks forever because no matching message will ever arrive; spec §4.3
deadlock policy). -/
inductive RunError where
  | mpi (e : MPIError)
  | deadlock
deriving DecidableEq, Repr

/-- A send of a string payload, as issued by `comm.Send[str]` in the example
scripts. -/
def sendText (st : CommState) (selfRank : Nat) (s : String) (dest tag : Nat) :
    Except RunError CommState :=
  match send st selfRank (.text s) dest tag with
  | .error e => .error (.mpi e)
  | .ok st' => .ok st'

/-- A blocking receive of a string payload, as issued by `comm.Receive[str]` in
the example scripts; a receive with no matching message is reported as a
deadlock (the run is sequential, so no further send can unblock it). -/
def recvText (st : CommState) (selfRank : Nat) (f : SourceFilter) (tag : Nat) :
    Except RunError (String × CommState) :=
  match receive st selfRank f tag .text with
  | .error e => .error (.mpi e)
  | .ok none => .error .deadlock
  | .ok (some (.text s, st')) => .ok (s, st')
  | .ok (some (.int _, _)) => .error (.mpi .typeMismatch)

/-- Rank `k`'s program for `k ≥ 1` in `src/Examples/Python/Ring.py` (lines
23–27): receive a string from rank `k-1` with tag 0, append `", k"`, and send
the result to rank `(k+1) % size` with tag 0. -/
def ringWorker (k : Nat) (st : CommState) : Except RunError CommState := do
  let (msg, st') ← recvText st k (.rank (k - 1)) 0
  sendText st' k (msg ++ ", " ++ toString k) ((k + 1) % st'.size) 0

/-- Run the programs of ranks `1, 2, ..., j` in that order — the only schedule
the blocking receives admit, since rank `k` cannot proceed before rank `k-1`
has sent. -/
def ringWorkers : Nat → CommState → Except RunError CommState
  | 0, st => .ok st
  | j + 1, st => do
    let st' ← ringWorkers j st
    ringWorker (j + 1) st'

/-- The complete ring round of `src/Examples/Python/Ring.py` (lines 12–27) on
`n` processes: rank 0 sends `"Rosie"` to rank 1 with tag 0, ranks `1..n-1` each
run `ringWorker`, and rank 0 finally receives with the wildcard source and tag
0, returning the received string. -/
def ringRun (n : Nat) : Except RunError String := do
  let st1 ← sendText ⟨n, [], false⟩ 0 "Rosie" 1 0
  let stF ← ringWorkers (n - 1) st1
  let (msg, _) ← recvText stF 0 .anySource 0
  .ok msg

/-- The string the ring is expected to deliver after passing through ranks
`1..k`: the base string `"Rosie"` followed by `", r"` for every rank
`r ∈ {1, ..., k}` in ascending order. -/
def ringExpected : Nat → String
  | 0 => "Rosie"
  | k + 1 => ringExpected k ++ ", " ++ toString (k + 1)

/-- The dart-sampling loop of `src/Examples/Python/Pi.py` (lines 19–24):
starting from `dartsInCircle = 0`, each of the `n` iterations increments the
counter by 1 exactly when that iteration's dart lands inside the unit circle.
The geometric test `x*x + y*y <= 1.0` on the random draws of iteration `i` is
abstracted as the Boolean `inCircle i`, quantifying over every possible
sequence of draws. -/
def dartsInCircleLoop (inCircle : Nat → Bool) : Nat → Nat
  | 0 => 0
  | n + 1 => dartsInCircleLoop inCircle n + (if inCircle n then 1 else 0)

/-- The packet that `send` enqueues for payload `p` from `src` to `dest` with
tag `tag`. -/
def encPacket (src dest tag : Nat) (p : Payload) : Packet :=
  ⟨dest, ⟨encodePayload p, src, tag⟩⟩

/-- A sequence of sends of the payloads `ps`, in list order, from `selfRank`
to `dest` with tag `tag` (the sender side of the FIFO property, spec §8). -/
def sendAll (selfRank dest tag : Nat) : List Payload → CommState → Except MPIError CommState
  | [], st => .ok st
  | p :: ps, st =>
    match send st selfRank p dest tag with
    | .error e => .error e
    | .ok st' => sendAll selfRank dest tag ps st'

/-- A sequence of successive matching receives, one per expected payload kind
in `kinds`, collecting the received payloads in order (the receiver side of
the FIFO property, spec §8); a blocking receive is reported as a deadlock. -/
def recvAll (selfRank : Nat) (f : SourceFilter) (tag : Nat) :
    List PayloadKind → CommState → Except RunError (List Payload × CommState)
  | [], st => .ok ([], st)
  | k :: ks, st =>
    match receive st selfRank f tag k with
    | .error e => .error (.mpi e)
    | .ok none => .error .deadlock
    | .ok (some (p, st')) =>
      match recvAll selfRank f tag ks st' with
      | .error e => .error e
      | .ok (ps, st'') => .ok (p :: ps, st'')

/-- A Unicode scalar value survives the round trip through its code point. -/
theorem char_ofNat_toNat (c : Char) : Char.ofNat c.toNat = c := by
  have h : c.toNat.isValidChar := c.valid
  apply Char.eq_of_val_eq
  simp only [Char.ofNat, Char.toNat] at *
  rw [dif_pos h]
  apply UInt32.eq_of_toBitVec_eq
  simp [Char.ofNatAux, BitVec.ofNatLt]
  apply BitVec.eq_of_toNat_eq
  rfl

/-- Decoding inverts encoding on every payload (spec §6: a payload value can be
encoded to bytes and decoded back to an equivalent value, kind preserved). -/
theorem decodePayload_encodePayload (p : Payload) :
    decodePayload (encodePayload p) = some p := by
  cases p with
  | text s =>
    simp only [encodePayload, decodePayload, List.map_map, Option.some.injEq]
    have hmap : s.toList.map (Char.ofNat ∘ Char.toNat) = s.toList := by
      apply List.map_congr_left ?_ |>.trans (List.map_id _)
      intro c _
      exact char_ofNat_toNat c
    rw [hmap]
    cases s
    rfl
  | int n =>
    by_cases h : 0 ≤ n
    · simp only [encodePayload, if_pos h, decodePayload, Nat.ofDigits_digits,
        Option.some.injEq, Payload.int.injEq]
      omega
    · simp only [encodePayload, if_neg h, decodePayload, Nat.ofDigits_digits,
        Option.some.injEq, Payload.int.injEq]
      omega

/-- Folding integer addition from an accumulator is the accumulator plus the
list sum. -/
theorem foldl_add_eq_sum (l : List Int) (a : Int) :
    l.foldl (· + ·) a = a + l.sum := by
  induction l generalizing a with
  | nil => simp
  | cons x xs ih => simp [List.foldl_cons, ih, List.sum_cons]; ring

/-- C10: in the dart-sampling loop of Pi.py, the hit counter starts at 0,
grows by at most 1 per iteration, and hence stays within
`[0, dartsPerProcessor]` at every iteration and on loop exit, for every number
of darts and every sequence of draws (the counter is a natural number, so the
lower bound 0 is inherent in the type). -/
theorem dartsInCircle_bounded (inCircle : Nat → Bool) (dartsPerProcessor k : Nat)
    (hk : k ≤ dartsPerProcessor) :
    dartsInCircleLoop inCircle k ≤ dartsPerProcessor ∧
    dartsInCircleLoop inCircle (k + 1) ≤ dartsInCircleLoop inCircle k + 1 := by
  constructor
  · have hle : ∀ m, dartsInCircleLoop inCircle m ≤ m := by
      intro m
      induction m with
      | zero => simp [dartsInCircleLoop]
      | succ j ih =>
        simp only [dartsInCircleLoop]
        split <;> omega
    exact le_trans (hle k) hk
  · simp only [dartsInCircleLoop]
    split <;> omega

/-- C10 witness: the bounds instantiated at 3 of 10 iterations with every dart
hitting. -/
theorem dartsInCircle_bounded_witness :
    dartsInCircleLoop (fun _ => true) 3 ≤ 10 ∧
    dartsInCircleLoop (fun _ => true) 4 ≤ dartsInCircleLoop (fun _ => true) 3 + 1 :=
  dartsInCircle_bounded (fun _ => true) 10 3 (by decide)

/-- C1: a reduce with the add operation over a communicator of size `n`, with
rank `i` contributing `v_i`, returns at the root exactly the sequential
rank-order sum `v_0 + v_1 + ... + v_{n-1}` (`List.sum` of the contributions in
rank order), and returns no aggregate (`none`) at every non-root rank. -/
theorem reduce_add_correct (st : CommState) (h : st.destroyed = false)
    (v : Int) (vs : List Int) (self r : Nat) (_hlen : vs.length + 1 = st.size) :
    reduce st self (v :: vs) (· + ·) r =
      .ok (if self = r then some ((v :: vs).sum) else none) := by
  simp only [reduce, h, Bool.false_eq_true, if_false]
  split
  · simp [foldl_add_eq_sum, List.sum_cons]
  · simp

/-- C1 witness: three ranks contributing 3, 4, 5; the root (rank 1) obtains 12,
rank 0 obtains nothing. -/
theorem reduce_add_correct_witness :
    reduce ⟨3, [], false⟩ 1 [3, 4, 5] (· + ·) 1 = .ok (some 12) ∧
    reduce ⟨3, [], false⟩ 0 [3, 4, 5] (· + ·) 1 = .ok none := by
  have h1 := reduce_add_correct ⟨3, [], false⟩ rfl 3 [4, 5] 1 1 rfl
  have h2 := reduce_add_correct ⟨3, [], false⟩ rfl 3 [4, 5] 0 1 rfl
  norm_num at h1 h2
  exact ⟨h1, h2⟩

/-- C6: every communication operation — send, receive, reduce — invoked on a
destroyed communicator fails with the `destroyedComm` error; none of them ever
returns a success value, so the failure is distinguishable from normal
completion. -/
theorem destroyed_comm_errors (st : CommState) (h : st.destroyed = true)
    (self dest tag : Nat) (v : Payload) (f : SourceFilter) (k : PayloadKind)
    (vals : List Int) (op : Int → Int → Int) (root : Nat) :
    send st self v dest tag = .error .destroyedComm ∧
    receive st self f tag k = .error .destroyedComm ∧
    reduce st self vals op root = .error .destroyedComm ∧
    (∀ st', send st self v dest tag ≠ .ok st') ∧
    (∀ o, receive st self f tag k ≠ .ok o) ∧
    (∀ o, reduce st self vals op root ≠ .ok o) := by
  simp [send, receive, reduce, h]

/-- C6 witness: the three operations on a concrete destroyed two-process
communicator. -/
theorem destroyed_comm_errors_witness :
    send ⟨2, [], true⟩ 0 (.text "hi") 1 0 = .error .destroyedComm ∧
    receive ⟨2, [], true⟩ 0 (.rank 1) 0 .text = .error .destroyedComm ∧
    reduce ⟨2, [], true⟩ 0 [1, 2] (· + ·) 0 = .error .destroyedComm := by
  have h := destroyed_comm_errors ⟨2, [], true⟩ rfl 0 1 0 (.text "hi") (.rank 1)
    .text [1, 2] (· + ·) 0
  exact ⟨h.1, h.2.1, h.2.2.1⟩

/-- C7: on a live communicator, `send` fails with `InvalidDestinationError`
exactly when the destination rank lies outside `[0, size)` (destination ranks
are naturals, so "outside" means `size ≤ dest`), and under the preconditions
`dest < size`, `dest ≠ self` and a (necessarily non-negative) tag the send
succeeds, raising no error at all. -/
theorem send_invalidDestination_iff (st : CommState) (h : st.destroyed = false)
    (self dest tag : Nat) (v : Payload) :
    (send st self v dest tag = .error .invalidDestination ↔ st.size ≤ dest) ∧
    (dest < st.size → dest ≠ self → ∃ st', send st self v dest tag = .ok st') := by
  constructor
  · simp only [send, h, Bool.false_eq_true, if_false]
    split
    · simp_all
    · simp_all
  · intro h1 _
    exact ⟨{ st with inflight :=
        st.inflight ++ [⟨dest, ⟨encodePayload v, self, tag⟩⟩] },
      by simp [send, h, Nat.not_le.2 h1]⟩

/-- C7 witness: on a live 2-process communicator, sending to rank 5 is an
invalid destination, and sending to rank 1 from rank 0 succeeds. -/
theorem send_invalidDestination_iff_witness :
    send ⟨2, [], false⟩ 0 (.int 7) 5 0 = .error .invalidDestination ∧
    ∃ st', send ⟨2, [], false⟩ 0 (.int 7) 1 0 = .ok st' := by
  have h5 := send_invalidDestination_iff ⟨2, [], false⟩ rfl 0 5 0 (.int 7)
  have h1 := send_invalidDestination_iff ⟨2, [], false⟩ rfl 0 1 0 (.int 7)
  exact ⟨h5.1.mpr (by norm_num), h1.2 (by norm_num) (by norm_num)⟩

/-- C8: the Pi.py reduce scenario on 5 processes each throwing 1000 darts:
with every contributed hit count `h_i` an integer in `[0, 1000]`, the reduce
with addition at root 0 returns the sum of the five counts at the root, and the
derived exact rational ratio `4 * sum / (5 * 1000)` lies in `[0, 4]`. -/
theorem reduce_pi_scenario (st : CommState) (h : st.destroyed = false)
    (_hsz : st.size = 5) (h0 h1 h2 h3 h4 : Int)
    (b0 : 0 ≤ h0 ∧ h0 ≤ 1000) (b1 : 0 ≤ h1 ∧ h1 ≤ 1000)
    (b2 : 0 ≤ h2 ∧ h2 ≤ 1000) (b3 : 0 ≤ h3 ∧ h3 ≤ 1000)
    (b41 : 0 ≤ h4 ∧ h4 ≤ 1000) :
    reduce st 0 [h0, h1, h2, h3, h4] (· + ·) 0 =
      .ok (some (h0 + h1 + h2 + h3 + h4)) ∧
    0 ≤ (4 * ((h0 + h1 + h2 + h3 + h4 : Int) : ℚ)) / (5 * 1000) ∧
    (4 * ((h0 + h1 + h2 + h3 + h4 : Int) : ℚ)) / (5 * 1000) ≤ 4 := by
  obtain ⟨c0, d0⟩ := b0
  obtain ⟨c1, d1⟩ := b1
  obtain ⟨c2, d2⟩ := b2
  obtain ⟨c3, d3⟩ := b3
  obtain ⟨c4, d4⟩ := b41
  have hlo : (0 : ℤ) ≤ h0 + h1 + h2 + h3 + h4 := by omega
  have hhi : h0 + h1 + h2 + h3 + h4 ≤ (5000 : ℤ) := by omega
  refine ⟨?_, ?_, ?_⟩
  · simp [reduce, h]
  · apply div_nonneg _ (by norm_num)
    have hq : (0 : ℚ) ≤ ((h0 + h1 + h2 + h3 + h4 : Int) : ℚ) := by
      exact_mod_cast hlo
    linarith
  · rw [div_le_iff₀ (by norm_num)]
    have hq : ((h0 + h1 + h2 + h3 + h4 : Int) : ℚ) ≤ 5000 := by
      exact_mod_cast hhi
    linarith

/-- C8 witness: the scenario with concrete hit counts 700, 800, 750, 820, 780;
the root obtains 3850 and the ratio bounds hold there. -/
theorem reduce_pi_scenario_witness :
    reduce ⟨5, [], false⟩ 0 [700, 800, 750, 820, 780] (· + ·) 0 =
      .ok (some 3850) ∧
    0 ≤ (4 * ((3850 : Int) : ℚ)) / (5 * 1000) ∧
    (4 * ((3850 : Int) : ℚ)) / (5 * 1000) ≤ 4 := by
  have h := reduce_pi_scenario ⟨5, [], false⟩ rfl rfl 700 800 750 820 780
    (by norm_num) (by norm_num) (by norm_num) (by norm_num) (by norm_num)
  norm_num at h ⊢
  exact h

/-- C4: the ring scenario on exactly 4 processes — rank 0 sends "Rosie" to
rank 1 with tag 0, each rank k in {1, 2, 3} receives from rank k-1, appends
", k", and sends to rank (k+1) mod 4 — ends with rank 0's any-source receive
on tag 0 returning exactly the string "Rosie, 1, 2, 3". -/
theorem ring_four_processes : ringRun 4 = .ok "Rosie, 1, 2, 3" := by rfl

/-- Matching skips over a prefix of non-matching packets: the first match in
`l1 ++ l2` is the first match in `l2` whenever nothing in `l1` matches, and the
prefix is kept in the remaining queue. -/
theorem takeFirstMatch_append_left (self : Nat) (f : SourceFilter) (tag : Nat)
    (l1 l2 : List Packet)
    (h1 : ∀ q ∈ l1, (q.dest == self && filterMatches f tag q.msg) = false) :
    takeFirstMatch self f tag (l1 ++ l2) =
      (takeFirstMatch self f tag l2).map fun mr => (mr.1, l1 ++ mr.2) := by
  induction l1 with
  | nil =>
    simp only [List.nil_append]
    cases takeFirstMatch self f tag l2 <;> simp
  | cons q qs ih =>
    have hq := h1 q (by simp)
    have ih' := ih fun r hr => h1 r (by simp [hr])
    simp only [List.cons_append, takeFirstMatch, hq, Bool.false_eq_true, if_false,
      List.append_eq]
    rw [ih']
    cases takeFirstMatch self f tag l2 with
    | none => simp
    | some mr => simp

/-- Sending on a live communicator to an in-range destination succeeds and
appends the encoded packet to the in-flight queue. -/
theorem send_ok (st : CommState) (h : st.destroyed = false) (self : Nat)
    (p : Payload) (dest tag : Nat) (hd : dest < st.size) :
    send st self p dest tag =
      .ok { st with inflight := st.inflight ++ [encPacket self dest tag p] } := by
  simp [send, h, Nat.not_le.2 hd, encPacket]

/-- C2: a send of any payload (string or integer) to a valid destination with
any tag, followed by a matching receive on the destination process, returns
exactly the payload sent — the encode-then-decode round trip underlying the
exchange is the identity on payloads — and restores the in-flight queue to its
prior contents. -/
theorem send_receive_roundtrip (st : CommState) (h : st.destroyed = false)
    (src dest tag : Nat) (hs : src < st.size) (hd : dest < st.size) (p : Payload)
    (hclean : ∀ q ∈ st.inflight,
      (q.dest == dest && filterMatches (.rank src) tag q.msg) = false) :
    decodePayload (encodePayload p) = some p ∧
    ∃ st₁, send st src p dest tag = .ok st₁ ∧
      receive st₁ dest (.rank src) tag p.kind = .ok (some (p, st)) := by
  refine ⟨decodePayload_encodePayload p, ?_⟩
  refine ⟨{ st with inflight := st.inflight ++ [encPacket src dest tag p] },
    send_ok st h src p dest tag hd, ?_⟩
  have htf : takeFirstMatch dest (.rank src) tag
      (st.inflight ++ [encPacket src dest tag p]) =
      some (⟨encodePayload p, src, tag⟩, st.inflight ++ []) := by
    rw [takeFirstMatch_append_left dest (.rank src) tag st.inflight _ hclean]
    simp [takeFirstMatch, filterMatches, encPacket]
  simp [receive, h, sourceInvalid, Nat.not_le.2 hs, htf, decodePayload_encodePayload]
  cases st
  simp_all

/-- C2 witness: rank 0 sends the string "Ping!" to rank 1 with tag 0 on an
idle 2-process communicator; rank 1's matching receive returns "Ping!". -/
theorem send_receive_roundtrip_witness :
    decodePayload (encodePayload (.text "Ping!")) = some (.text "Ping!") ∧
    ∃ st₁, send ⟨2, [], false⟩ 0 (.text "Ping!") 1 0 = .ok st₁ ∧
      receive st₁ 1 (.rank 0) 0 .text = .ok (some (.text "Ping!", ⟨2, [], false⟩)) :=
  send_receive_roundtrip ⟨2, [], false⟩ rfl 0 1 0 (by norm_num) (by norm_num)
    (.text "Ping!") (by simp)

/-- A sequence of sends on a live communicator to an in-range destination
succeeds and appends the encoded packets to the in-flight queue in send
order. -/
theorem sendAll_ok (src dest tag : Nat) (ps : List Payload) :
    ∀ st : CommState, st.destroyed = false → dest < st.size →
      sendAll src dest tag ps st =
        .ok { st with inflight := st.inflight ++ ps.map (encPacket src dest tag) } := by
  induction ps with
  | nil =>
    intro st _ _
    simp [sendAll]
  | cons p ps ih =>
    intro st h hd
    simp only [sendAll, send_ok st h src p dest tag hd]
    rw [ih { st with inflight := st.inflight ++ [encPacket src dest tag p] } h hd]
    simp

/-- Successive matching receives drain the matching packets of the in-flight
queue in send order, returning their payloads in that order and leaving the
non-matching prefix untouched. -/
theorem recvAll_ok (src dest tag : Nat) (l1 : List Packet)
    (hcl : ∀ q ∈ l1, (q.dest == dest && filterMatches (.rank src) tag q.msg) = false)
    (ps : List Payload) :
    ∀ st : CommState, st.destroyed = false → src < st.size →
      st.inflight = l1 ++ ps.map (encPacket src dest tag) →
      recvAll dest (.rank src) tag (ps.map Payload.kind) st =
        .ok (ps, { st with inflight := l1 }) := by
  induction ps with
  | nil =>
    intro st h hs hinfl
    obtain ⟨sz, infl, d⟩ := st
    simp only [List.map_nil, List.append_nil] at hinfl
    subst hinfl
    simp [recvAll]
  | cons p ps ih =>
    intro st h hs hinfl
    have htf : takeFirstMatch dest (.rank src) tag st.inflight =
        some (⟨encodePayload p, src, tag⟩, l1 ++ ps.map (encPacket src dest tag)) := by
      rw [hinfl, List.map_cons,
        takeFirstMatch_append_left dest (.rank src) tag l1 _ hcl]
      simp [takeFirstMatch, filterMatches, encPacket]
    have hrecv : receive st dest (.rank src) tag p.kind =
        .ok (some (p, { st with inflight := l1 ++ ps.map (encPacket src dest tag) })) := by
      simp [receive, h, sourceInvalid, Nat.not_le.2 hs, htf, decodePayload_encodePayload]
    simp only [List.map_cons, recvAll, hrecv]
    rw [ih { st with inflight := l1 ++ ps.map (encPacket src dest tag) } h hs rfl]

/-- C3: FIFO ordering per (source, destination, tag) triple — if process A
performs a sequence of sends of payloads `ps` to process B, all with tag `t`,
starting from any reachable state whose queue holds no message matching
(A, t) at B, then B's successive receives matching (A, t) return exactly the
payloads `ps` in the order A sent them, and leave the rest of the queue
untouched. -/
theorem fifo_order (st : CommState) (h : st.destroyed = false) (src dest tag : Nat)
    (hs : src < st.size) (hd : dest < st.size) (ps : List Payload)
    (hclean : ∀ q ∈ st.inflight,
      (q.dest == dest && filterMatches (.rank src) tag q.msg) = false) :
    ∃ st₁, sendAll src dest tag ps st = .ok st₁ ∧
      recvAll dest (.rank src) tag (ps.map Payload.kind) st₁ = .ok (ps, st) := by
  refine ⟨_, sendAll_ok src dest tag ps st h hd, ?_⟩
  exact recvAll_ok src dest tag st.inflight hclean ps _ h hs rfl

/-- C3 witness: rank 0 sends the strings "a", "b" and the integer 7 to rank 1
with tag 2 on an idle 3-process communicator; rank 1's three successive
matching receives return them in exactly that order. -/
theorem fifo_order_witness :
    ∃ st₁, sendAll 0 1 2 [.text "a", .text "b", .int 7] ⟨3, [], false⟩ = .ok st₁ ∧
      recvAll 1 (.rank 0) 2 [.text, .text, .int] st₁ =
        .ok ([.text "a", .text "b", .int 7], ⟨3, [], false⟩) :=
  fifo_order ⟨3, [], false⟩ rfl 0 1 2 (by norm_num) (by norm_num)
    [.text "a", .text "b", .int 7] (by simp)

/-- A queue holding a packet for `self` with the requested tag always yields a
wildcard-source match: the earliest such packet is returned and removed, the
skipped prefix matches nothing. -/
theorem takeFirstMatch_anySource (self tag : Nat) (l : List Packet)
    (hq : ∃ q ∈ l, q.dest = self ∧ q.msg.tag = tag) :
    ∃ m rest, takeFirstMatch self .anySource tag l = some (m, rest) ∧
      m.tag = tag ∧
      ∃ l1 l2, l = l1 ++ ⟨self, m⟩ :: l2 ∧ rest = l1 ++ l2 ∧
        ∀ q ∈ l1, (q.dest == self && filterMatches .anySource tag q.msg) = false := by
  induction l with
  | nil => simp at hq
  | cons q qs ih =>
    by_cases hqm : (q.dest == self && filterMatches .anySource tag q.msg) = true
    · have hparts : q.dest = self ∧ q.msg.tag = tag := by
        simpa [filterMatches] using hqm
      refine ⟨q.msg, qs, by simp [takeFirstMatch, hqm], hparts.2, [], qs, ?_, rfl,
        by simp⟩
      obtain ⟨d, msg⟩ := q
      simp_all
    · have hqf : (q.dest == self && filterMatches .anySource tag q.msg) = false :=
        Bool.not_eq_true _ ▸ eq_false_of_ne_true hqm
      have hq' : ∃ r ∈ qs, r.dest = self ∧ r.msg.tag = tag := by
        obtain ⟨r, hr, hrd, hrt⟩ := hq
        rcases List.mem_cons.1 hr with rfl | hr'
        · exact absurd (by simp [filterMatches, hrd, hrt]) hqm
        · exact ⟨r, hr', hrd, hrt⟩
      obtain ⟨m, rest, hres, htag, l1, l2, hsplit, hrest, hnm⟩ := ih hq'
      refine ⟨m, q :: rest, ?_, htag, q :: l1, l2, by simp [hsplit], by simp [hrest], ?_⟩
      · simp [takeFirstMatch, hqf, hres]
      · intro r hr
        rcases List.mem_cons.1 hr with rfl | hr'
        · exact hqf
        · exact hnm r hr'

/-- A receive whose matching step succeeds never reports "no message": it
either returns the decoded payload or fails loudly with a type mismatch. -/
theorem receive_not_blocked (st : CommState) (h : st.destroyed = false)
    (self : Nat) (f : SourceFilter) (tag : Nat)
    (hsv : sourceInvalid st.size f = false) (m : Message) (rest : List Packet)
    (htf : takeFirstMatch self f tag st.inflight = some (m, rest))
    (k : PayloadKind) :
    receive st self f tag k ≠ .ok none := by
  simp only [receive, h, Bool.false_eq_true, if_false, hsv, htf]
  cases hdec : decodePayload m.data with
  | none => simp
  | some p =>
    by_cases hk : p.kind = k <;> simp [hk]

/-- C5: a receive issued with the wildcard any-source filter and tag `t`
matches a message from any sender carrying tag `t` — whenever the queue holds
a message for the receiver with tag `t`, the wildcard match succeeds, the
matched message carries tag `t` whatever its source, the queue decomposes as a
non-matching prefix, the matched message, and a suffix, the message is removed
from the queue exactly once (so no later request can be resolved by it again,
and no other pending message is touched), and the pending receive does not
remain blocked. -/
theorem anySource_resolution (l : List Packet) (self tag : Nat)
    (hq : ∃ q ∈ l, q.dest = self ∧ q.msg.tag = tag) :
    ∃ m rest, takeFirstMatch self .anySource tag l = some (m, rest) ∧
      m.tag = tag ∧
      (∃ l1 l2, l = l1 ++ ⟨self, m⟩ :: l2 ∧ rest = l1 ++ l2 ∧
        ∀ q ∈ l1, (q.dest == self && filterMatches .anySource tag q.msg) = false) ∧
      ∀ sz k, receive ⟨sz, l, false⟩ self .anySource tag k ≠ .ok none := by
  obtain ⟨m, rest, hres, htag, hsplit⟩ := takeFirstMatch_anySource self tag l hq
  exact ⟨m, rest, hres, htag, hsplit, fun sz k =>
    receive_not_blocked ⟨sz, l, false⟩ rfl self .anySource tag rfl m rest hres k⟩

/-- C5 witness: a queue holding a packet for rank 1 and, behind it, a packet
for rank 0 with tag 7 sent by rank 5; rank 0's wildcard receive on tag 7
resolves with the latter. -/
theorem anySource_resolution_witness :
    ∃ m rest,
      takeFirstMatch 0 .anySource 7 [⟨1, ⟨[], 0, 7⟩⟩, ⟨0, ⟨[], 5, 7⟩⟩] =
        some (m, rest) ∧
      m.tag = 7 ∧
      (∃ l1 l2, [⟨1, ⟨[], 0, 7⟩⟩, ⟨0, ⟨[], 5, 7⟩⟩] = l1 ++ ⟨0, m⟩ :: l2 ∧
        rest = l1 ++ l2 ∧
        ∀ q ∈ l1, (q.dest == 0 && filterMatches .anySource 7 q.msg) = false) ∧
      ∀ sz k,
        receive ⟨sz, [⟨1, ⟨[], 0, 7⟩⟩, ⟨0, ⟨[], 5, 7⟩⟩], false⟩ 0 .anySource 7 k ≠
          .ok none :=
  anySource_resolution [⟨1, ⟨[], 0, 7⟩⟩, ⟨0, ⟨[], 5, 7⟩⟩] 0 7
    ⟨⟨0, ⟨[], 5, 7⟩⟩, by simp, rfl, rfl⟩

/-- After the programs of ranks `1..j` have run (for `j ≤ n - 1`), exactly one
message is in flight: the token carrying `ringExpected j`, sent by rank `j` to
rank `(j + 1) % n` with tag 0. -/
theorem ringWorkers_state (n : Nat) (hn : 2 ≤ n) :
    ∀ j, j ≤ n - 1 →
      ringWorkers j ⟨n, [⟨1, ⟨encodePayload (.text "Rosie"), 0, 0⟩⟩], false⟩ =
        .ok ⟨n, [⟨(j + 1) % n,
          ⟨encodePayload (.text (ringExpected j)), j, 0⟩⟩], false⟩ := by
  intro j
  induction j with
  | zero =>
    intro _
    have h1 : 1 % n = 1 := Nat.mod_eq_of_lt (by omega)
    simp [ringWorkers, ringExpected, h1]
  | succ j ih =>
    intro hj
    have hjn : j + 1 < n := by omega
    have ihres := ih (by omega)
    have hmod : (j + 1) % n = j + 1 := Nat.mod_eq_of_lt hjn
    have hsv : decide (n ≤ j) = false := decide_eq_false (by omega)
    have hdest : ¬n ≤ (j + 1 + 1) % n := Nat.not_le.2 (Nat.mod_lt _ (by omega))
    simp only [ringWorkers, ihres, bind, Except.bind, ringWorker, recvText, receive,
      Bool.false_eq_true, if_false, sourceInvalid, hsv, takeFirstMatch, filterMatches,
      hmod, decodePayload_encodePayload, sendText, send, ringExpected]
    simp [Nat.add_sub_cancel, hsv, hdest, decodePayload_encodePayload, Payload.kind,
      ringExpected]

/-- C9: for every communicator size `n ≥ 2`, the ring program — rank 0 sends
"Rosie" to rank 1 with tag 0, every rank `k > 0` receives from rank `k - 1` on
tag 0 and sends the received string with ", k" appended to rank
`(k + 1) % n` on tag 0 — ends with rank 0's any-source receive on tag 0
returning `ringExpected (n - 1)`, the base string "Rosie" followed by every
non-zero rank in ascending order. -/
theorem ring_general (n : Nat) (hn : 2 ≤ n) :
    ringRun n = .ok (ringExpected (n - 1)) := by
  have hsend : sendText ⟨n, [], false⟩ 0 "Rosie" 1 0 =
      .ok ⟨n, [⟨1, ⟨encodePayload (.text "Rosie"), 0, 0⟩⟩], false⟩ := by
    simp [sendText, send, Nat.not_le.2 (by omega : 1 < n)]
  have hwork := ringWorkers_state n hn (n - 1) le_rfl
  have hfin : (n - 1 + 1) % n = 0 := by
    have h : n - 1 + 1 = n := by omega
    simp [h]
  rw [hfin] at hwork
  simp only [ringRun, bind, Except.bind, hsend, hwork, recvText, receive,
    sourceInvalid, takeFirstMatch, filterMatches]
  norm_num
  rw [decodePayload_encodePayload]
  simp [Payload.kind]

/-- C9 witness: the ring on 5 processes delivers "Rosie, 1, 2, 3, 4", the
expected string for `n = 5`. -/
theorem ring_general_witness : ringRun 5 = .ok (ringExpected 4) :=
  ring_general 5 (by norm_num)

end MPIModel
